import Mathlib

/-!
Verification of the dual-resolution plasma initialization module
(`lcode2dPy/plasma3d_gpu/initialization_dual.py`).

Embedding conventions:
* Grid coordinates, particle arrays, field/current arrays are embedded over `ℚ`
  (the float64 values produced by the source here are exact small dyadics, so
  the algebraic relations under scrutiny are faithfully captured by exact
  rational arithmetic).
* The three spectral matrices use `Real.sin`, mirroring `np.sin`, so they live
  over `ℝ`.
* 2D numpy arrays are `List (List ℚ)` (or `List (List ℝ)`), rows first.
* `np.searchsorted(a, v, side='left')` on a sorted array returns the number of
  entries strictly below `v`; it is modelled by `countP`.
* Python `assert cond` / `raise` become `Except` error returns; the numpy
  fancy-indexing failure on an empty coarse grid (index `-1` into an empty
  array inside `make_plasma`) is modelled by the `indexError` branch.
-/

namespace LcodeDual

def ELECTRON_CHARGE : ℚ := -1
def ELECTRON_MASS : ℚ := 1

/-- Eigenvalue `lam[k] = 4 / h**2 * sin(k * pi / (2 * (N - 1)))**2`
shared by all three spectral matrix builders
(`initialization_dual.py`, lines 24, 43-44, 63). -/
noncomputable def lam (N : ℕ) (h : ℝ) (k : ℕ) : ℝ :=
  4 / h ^ 2 * Real.sin ((k : ℝ) * Real.pi / (2 * ((N : ℝ) - 1))) ^ 2

/-- `dirichlet_matrix(grid_steps, grid_step_size)`: `k` spans `1..N-2` on both
axes, entry `1/(lam i + lam j)`, scaled by `1/(2(N-1))^2` (lines 15-27). -/
noncomputable def dirichlet_matrix (N : ℕ) (h : ℝ) : List (List ℝ) :=
  (List.range (N - 2)).map fun a =>
    (List.range (N - 2)).map fun b =>
      (1 / (lam N h (a + 1) + lam N h (b + 1))) / (2 * ((N : ℝ) - 1)) ^ 2

/-- `mixed_matrix(grid_steps, grid_step_size, subtraction_trick)`: row modes
`ki = 1..N-2`, column modes `kj = 0..N-1`, entry
`1/(lam i + lam j + (1 if subtraction_trick else 0))`, scaled (lines 32-48). -/
noncomputable def mixed_matrix (N : ℕ) (h : ℝ) (trick : Bool) : List (List ℝ) :=
  (List.range (N - 2)).map fun a =>
    (List.range N).map fun b =>
      (1 / (lam N h (a + 1) + lam N h b + (if trick then 1 else 0))) /
        (2 * ((N : ℝ) - 1)) ^ 2

/-- `neumann_matrix(grid_steps, grid_step_size)`: `k` spans `0..N-1` on both
axes; entry `[0,0]` (both eigenvalues zero) is overridden to `0` before the
global scaling, hence equals exactly `0` (lines 53-67). -/
noncomputable def neumann_matrix (N : ℕ) (h : ℝ) : List (List ℝ) :=
  (List.range N).map fun a =>
    (List.range N).map fun b =>
      if a = 0 ∧ b = 0 then 0
      else (1 / (lam N h a + lam N h b)) / (2 * ((N : ℝ) - 1)) ^ 2

/-- Entry accessor for a rows-first 2D array (in-range accesses only are used
in the theorems below). -/
def entryR (m : List (List ℝ)) (i j : ℕ) : ℝ := (m.getD i []).getD j 0

/-- `make_coarse_plasma_grid(steps, step_size, coarseness)` (lines 72-83):
`right_half = arange(steps // (coarseness * 2)) * plasma_step`,
`left_half = -right_half[:0:-1]` (reverse dropping element 0, negated). -/
def make_coarse_plasma_grid (steps : ℕ) (step_size : ℚ) (coarseness : ℕ) :
    List ℚ :=
  let plasma_step := step_size * coarseness
  let right_half := (List.range (steps / (coarseness * 2))).map
    fun i : ℕ => (i : ℚ) * plasma_step
  let left_half := (right_half.drop 1).reverse.map fun x => -x
  left_half ++ right_half

/-- `make_fine_plasma_grid(steps, step_size, fineness)` (lines 86-116): odd
`fineness` puts `arange(steps // 2 * fineness) * plasma_step` on the right and
mirrors it dropping zero; even `fineness` shifts by half a step and mirrors
the whole half (`-right_half[::-1]`). -/
def make_fine_plasma_grid (steps : ℕ) (step_size : ℚ) (fineness : ℕ) :
    List ℚ :=
  let plasma_step := step_size / fineness
  if fineness % 2 = 1 then
    let right_half := (List.range (steps / 2 * fineness)).map
      fun i : ℕ => (i : ℚ) * plasma_step
    ((right_half.drop 1).reverse.map fun x => -x) ++ right_half
  else
    let right_half := (List.range (steps / 2 * fineness)).map
      fun i : ℕ => ((1 : ℚ) / 2 + i) * plasma_step
    (right_half.reverse.map fun x => -x) ++ right_half

/-- Model of `np.searchsorted(a, v, side='left')` for a sorted array `a`:
the number of entries strictly less than `v`. -/
def searchsorted (l : List ℚ) (v : ℚ) : ℕ :=
  l.countP fun x => decide (x < v)

/-- Model of `np.clip(a, lo, hi)` (documented as `minimum(hi, maximum(a, lo))`). -/
def clip (a lo hi : ℤ) : ℤ := min hi (max lo a)

/-- In-range numpy 1D indexing `l[i]` (the development only evaluates it at
`0 ≤ i < l.length`). -/
def idx (l : List ℚ) (i : ℤ) : ℚ := l.getD i.toNat 0

/-- `indices_next = np.clip(searchsorted(coarse_grid, fine_grid), 0, Nc - 1)`,
per fine value (line 160). -/
def idxNextAt (coarse : List ℚ) (v : ℚ) : ℤ :=
  clip (searchsorted coarse v) 0 ((coarse.length : ℤ) - 1)

/-- `indices_prev = np.clip(indices - 1, 0, Nc - 1)`, per fine value (line 162). -/
def idxPrevAt (coarse : List ℚ) (v : ℚ) : ℤ :=
  clip ((searchsorted coarse v : ℤ) - 1) 0 ((coarse.length : ℤ) - 1)

/-- Final `influence_prev` per fine value (lines 168-174): the raw weight
`(coarse_grid[indices_next] - fine) / coarse_step`, then the masked
assignments `influence_prev[indices_next == 0] = 0` and
`influence_prev[indices_prev == Nc - 1] = 1`, the later assignment winning. -/
def infPrevAt (coarse : List ℚ) (cstep v : ℚ) : ℚ :=
  if idxPrevAt coarse v = (coarse.length : ℤ) - 1 then 1
  else if idxNextAt coarse v = 0 then 0
  else (idx coarse (idxNextAt coarse v) - v) / cstep

/-- Final `influence_next` per fine value (lines 169-173): raw weight
`(fine - coarse_grid[indices_prev]) / coarse_step` with the masked
assignments `influence_next[indices_next == 0] = 1` and
`influence_next[indices_prev == Nc - 1] = 0`. -/
def infNextAt (coarse : List ℚ) (cstep v : ℚ) : ℚ :=
  if idxPrevAt coarse v = (coarse.length : ℤ) - 1 then 0
  else if idxNextAt coarse v = 0 then 1
  else (v - idx coarse (idxPrevAt coarse v)) / cstep

/-- The `virt_params` bundle (lines 194-198). -/
structure VirtParams where
  influence_prev : List ℚ
  influence_next : List ℚ
  indices_prev : List ℤ
  indices_next : List ℤ
  fine_grid : List ℚ
  deriving DecidableEq

/-- The ten components returned by `make_plasma`, in the source's return order
(lines 200-203): positions, offsets, momenta, then `coarse_m`, then
`coarse_q`, then `virt_params`. -/
structure PlasmaTuple where
  coarse_x_init : List (List ℚ)
  coarse_y_init : List (List ℚ)
  coarse_x_offt : List (List ℚ)
  coarse_y_offt : List (List ℚ)
  coarse_px : List (List ℚ)
  coarse_py : List (List ℚ)
  coarse_pz : List (List ℚ)
  coarse_m : List (List ℚ)
  coarse_q : List (List ℚ)
  virt_params : VirtParams
  deriving DecidableEq

/-- `cp.broadcast_to(coarse_grid[:, None], (Nc, Nc))`: row `i` is `Nc` copies
of `coarse_grid[i]`. -/
def broadcast_col (g : List ℚ) : List (List ℚ) :=
  g.map fun x => g.map fun _ => x

/-- `cp.broadcast_to(coarse_grid[None, :], (Nc, Nc))`: every row is the grid. -/
def broadcast_row (g : List ℚ) : List (List ℚ) :=
  g.map fun _ => g

/-- An `n × n` constant array (`cp.zeros((n, n))` or `cp.ones((n, n)) * c`). -/
def constM (n : ℕ) (c : ℚ) : List (List ℚ) :=
  (List.range n).map fun _ => (List.range n).map fun _ => c

inductive InitError where
  | assertionError
  | configException
  | indexError
  deriving DecidableEq

/-- `make_plasma(steps, cell_size, coarseness, fineness)` (lines 119-203).
Coarse particle state on an `Nc × Nc` lattice plus the coarse-to-fine
interpolation table. The numpy fancy-indexing `coarse_grid[indices_next]`
fails (`IndexError`) when the coarse grid is empty while the fine grid is
not (`indices_next` is then `-1` for every fine point); that failure is the
`indexError` branch. -/
def make_plasma (steps : ℕ) (cell_size : ℚ) (coarseness fineness : ℕ) :
    Except InitError PlasmaTuple :=
  let coarse_step := cell_size * coarseness
  let coarse_grid := make_coarse_plasma_grid steps cell_size coarseness
  let fine_grid := make_fine_plasma_grid steps cell_size fineness
  let Nc := coarse_grid.length
  if Nc = 0 ∧ fine_grid.length ≠ 0 then .error .indexError
  else .ok {
    coarse_x_init := broadcast_col coarse_grid
    coarse_y_init := broadcast_row coarse_grid
    coarse_x_offt := constM Nc 0
    coarse_y_offt := constM Nc 0
    coarse_px := constM Nc 0
    coarse_py := constM Nc 0
    coarse_pz := constM Nc 0
    coarse_m := constM Nc (ELECTRON_MASS * (coarseness : ℚ) ^ 2)
    coarse_q := constM Nc (ELECTRON_CHARGE * (coarseness : ℚ) ^ 2)
    virt_params := {
      influence_prev := fine_grid.map (infPrevAt coarse_grid coarse_step)
      influence_next := fine_grid.map (infNextAt coarse_grid coarse_step)
      indices_prev := fine_grid.map (idxPrevAt coarse_grid)
      indices_next := fine_grid.map (idxNextAt coarse_grid)
      fine_grid := fine_grid } }

/-- The configuration keys read by `init_plasma` (lines 210-216). -/
structure Config where
  window_width_steps : ℕ
  window_width_step_size : ℚ
  reflect_padding_steps : ℕ
  plasma_padding_steps : ℕ
  plasma_coarseness : ℕ
  plasma_fineness : ℕ
  field_solver_subtraction_trick : Bool

/-- The external `initial_deposition` collaborator (`weights_dual`), opaque to
this module; `init_plasma` passes it
`(grid_steps, grid_step_size, coarseness, fineness, x_offt, y_offt, px, py,
pz, m, q, virt_params)` (lines 238-241). -/
abbrev Deposition :=
  ℕ → ℚ → ℕ → ℕ → List (List ℚ) → List (List ℚ) → List (List ℚ) →
    List (List ℚ) → List (List ℚ) → List (List ℚ) → List (List ℚ) →
    VirtParams → List (List ℚ)

/-- A deposition stub used only to instantiate theorems at concrete inputs. -/
def zeroDeposit : Deposition :=
  fun gs _ _ _ _ _ _ _ _ _ _ _ => constM gs 0

/-- `GPUArrays(Ex=..., Ey=..., Ez=..., Bx=..., By=..., Bz=..., Phi=...)`. -/
structure Fields where
  Ex : List (List ℚ)
  Ey : List (List ℚ)
  Ez : List (List ℚ)
  Bx : List (List ℚ)
  By : List (List ℚ)
  Bz : List (List ℚ)
  Phi : List (List ℚ)

/-- `GPUArrays(x_init=..., y_init=..., x_offt=..., y_offt=..., px=..., py=...,
pz=..., q=..., m=...)`. -/
structure Particles where
  x_init : List (List ℚ)
  y_init : List (List ℚ)
  x_offt : List (List ℚ)
  y_offt : List (List ℚ)
  px : List (List ℚ)
  py : List (List ℚ)
  pz : List (List ℚ)
  q : List (List ℚ)
  m : List (List ℚ)

/-- `GPUArrays(ro=..., jx=..., jy=..., jz=...)`. -/
structure Currents where
  ro : List (List ℚ)
  jx : List (List ℚ)
  jy : List (List ℚ)
  jz : List (List ℚ)

/-- The `const_arrays` bundle (lines 259-267). -/
structure ConstArr where
  ro_initial : List (List ℚ)
  dirichlet_matrix : List (List ℝ)
  field_mixed_matrix : List (List ℝ)
  neumann_matrix : List (List ℝ)
  influence_prev : List ℚ
  influence_next : List ℚ
  indices_prev : List ℤ
  indices_next : List ℤ
  fine_grid : List ℚ

/-- `init_plasma(config)` (lines 206-269). The two `assert` statements and
the explicit `raise` become the `Except` error branches, in source order.
The unpack on line 232 is
`x_init, y_init, x_offt, y_offt, px, py, pz, q, m, virt_params = make_plasma(...)`
whereas `make_plasma` returns `(..., coarse_m, coarse_q, virt_params)`, so
the local `q` receives `coarse_m` and the local `m` receives `coarse_q`. -/
noncomputable def init_plasma (deposit : Deposition) (config : Config) :
    Except InitError (Fields × Particles × Currents × ConstArr) :=
  let grid_steps := config.window_width_steps
  let grid_step_size := config.window_width_step_size
  let reflect_padding_steps := config.reflect_padding_steps
  let plasma_padding_steps := config.plasma_padding_steps
  let plasma_coarseness := config.plasma_coarseness
  let plasma_fineness := config.plasma_fineness
  let solver_trick := config.field_solver_subtraction_trick
  if grid_steps % 2 = 1 then
    if plasma_coarseness + 1 < reflect_padding_steps then
      if reflect_padding_steps ≤ 2 then .error .configException
      else
        match make_plasma (grid_steps - plasma_padding_steps * 2)
            grid_step_size plasma_coarseness plasma_fineness with
        | .error e => .error e
        | .ok r =>
          let x_init := r.coarse_x_init
          let y_init := r.coarse_y_init
          let x_offt := r.coarse_x_offt
          let y_offt := r.coarse_y_offt
          let px := r.coarse_px
          let py := r.coarse_py
          let pz := r.coarse_pz
          let q := r.coarse_m
          let m := r.coarse_q
          let virt_params := r.virt_params
          let ro_initial := deposit grid_steps grid_step_size
            plasma_coarseness plasma_fineness x_offt y_offt px py pz m q
            virt_params
          let dir_matrix := dirichlet_matrix grid_steps (grid_step_size : ℝ)
          let mix_matrix :=
            mixed_matrix grid_steps (grid_step_size : ℝ) solver_trick
          let neu_matrix := neumann_matrix grid_steps (grid_step_size : ℝ)
          let zeros := constM grid_steps 0
          .ok (⟨zeros, zeros, zeros, zeros, zeros, zeros, zeros⟩,
               ⟨x_init, y_init, x_offt, y_offt, px, py, pz, q, m⟩,
               ⟨zeros, zeros, zeros, zeros⟩,
               ⟨ro_initial, dir_matrix, mix_matrix, neu_matrix,
                virt_params.influence_prev, virt_params.influence_next,
                virt_params.indices_prev, virt_params.indices_next,
                virt_params.fine_grid⟩)
    else .error .assertionError
  else .error .assertionError

inductive LoadError where
  | initError (e : InitError)
  | keyError (name : String)
  | unboundLocalError (name : String)
  deriving DecidableEq

/-- Lookup of a named array in the checkpoint (`state['Ex']` etc.); a missing
name raises `KeyError`. -/
def req (state : String → Option (List (List ℚ))) (name : String) :
    Except LoadError (List (List ℚ)) :=
  match state name with
  | some a => .ok a
  | none => .error (.keyError name)

/-- `load_plasma(config, path_to_plasmastate)` (lines 272-289). Line 273
discards the fresh `fields, particles, currents` bundles
(`_, _, _, const_arrays = init_plasma(config)`); the field arrays are then
read from the checkpoint in keyword order, and line 281 evaluates
`particles.x_init` where the local `particles` has not been assigned yet —
a Python `UnboundLocalError` — before any particle/current checkpoint key is
read. -/
noncomputable def load_plasma (deposit : Deposition) (config : Config)
    (state : String → Option (List (List ℚ))) :
    Except LoadError (Fields × Particles × Currents × ConstArr) := do
  let (_, _, _, _const_arrays) ←
    (init_plasma deposit config).mapError LoadError.initError
  let ex ← req state "Ex"
  let ey ← req state "Ey"
  let ez ← req state "Ez"
  let bx ← req state "Bx"
  let by' ← req state "By"
  let bz ← req state "Bz"
  let phi ← req state "Phi"
  let _fields : Fields := ⟨ex, ey, ez, bx, by', bz, phi⟩
  .error (.unboundLocalError "particles")

/-! Helper predicate and concrete instances used by the theorems below. -/

/-- `l` is the affine sequence `base, base + p, base + 2p, ...`. The coarse
plasma grid has this shape (uniform spacing `p`). -/
def AffineList (l : List ℚ) (base p : ℚ) : Prop :=
  ∀ i : ℕ, ∀ _ : i < l.length, l[i] = base + (i : ℚ) * p

/-- Spec-modelled eigenvalue, written from the spec formula
`λ(k) = (4/h²)·sin²(kπ / (2(N-1)))` (spec 4.2). -/
noncomputable def lamSpec (N : ℕ) (h : ℝ) (k : ℕ) : ℝ :=
  (4 / h ^ 2) * Real.sin ((k : ℝ) * Real.pi / (2 * ((N : ℝ) - 1))) ^ 2

/-- Spec-modelled mixed-matrix entry at mode pair `(i, j)`, written from the
claim: `(1/(2(N-1))²) · 1/(λᵢ + λⱼ + c)` with `c = 1` iff the subtraction
trick is enabled. -/
noncomputable def mixedSpec (N : ℕ) (h : ℝ) (trick : Bool) (i j : ℕ) : ℝ :=
  (1 / (2 * ((N : ℝ) - 1)) ^ 2) *
    (1 / (lamSpec N h i + lamSpec N h j + (if trick then 1 else 0)))

/-- A valid sample configuration: `grid_steps = 13` (odd),
`reflect_padding_steps = 5 > coarseness + 1 = 3 > 2`,
working window `13 - 2*2 = 9`, coarseness 2, fineness 2. -/
def cfgEx : Config := ⟨13, 1, 5, 2, 2, 2, true⟩

/-- The sample configuration used for the C3 witness: window `9 - 2 = 7`,
`reflect_padding_steps = 4 = coarseness + 2`. -/
def cfgC3 : Config := ⟨9, 1, 4, 1, 2, 2, false⟩

/-- The sixteen array names of the checkpoint contract. -/
def stateNames : List String :=
  ["Ex", "Ey", "Ez", "Bx", "By", "Bz", "Phi",
   "x_offt", "y_offt", "px", "py", "pz", "ro", "jx", "jy", "jz"]

/-- A complete checkpoint for `cfgEx` (every required array present). -/
def chkFull : String → Option (List (List ℚ)) :=
  fun n => if n ∈ stateNames then some (constM 13 0) else none

/-- A checkpoint for `cfgEx` missing exactly the array `ro`. -/
def chkNoRo : String → Option (List (List ℚ)) :=
  fun n => if n ∈ stateNames ∧ n ≠ "ro" then some (constM 13 0) else none

/-! Foundational lemmas: indexing, searchsorted on sorted lists, grid shapes. -/

lemma idx_natCast (l : List ℚ) (i : ℕ) (hi : i < l.length) :
    idx l (i : ℤ) = l[i] := by
  simp only [idx, Int.toNat_natCast]
  exact List.getD_eq_getElem l 0 hi

lemma searchsorted_le_length (l : List ℚ) (v : ℚ) :
    searchsorted l v ≤ l.length :=
  List.countP_le_length _

/-- On a strictly sorted list, an entry is below `v` exactly when its index
is below the left insertion position computed by `searchsorted`. -/
lemma sorted_getElem_lt_iff {l : List ℚ} (hl : l.Sorted (· < ·)) (v : ℚ) :
    ∀ i : ℕ, ∀ hi : i < l.length, (l[i] < v ↔ i < searchsorted l v) := by
  induction l with
  | nil => intro i hi; simp at hi
  | cons a t ih =>
    rw [List.sorted_cons] at hl
    obtain ⟨ha, ht⟩ := hl
    intro i hi
    have hcons : searchsorted (a :: t) v
        = searchsorted t v + if a < v then 1 else 0 := by
      simp [searchsorted, List.countP_cons]
    by_cases hav : a < v
    · rcases i with _ | j
      · simp [hcons, hav]
      · have hj : j < t.length := by simpa using hi
        have hiff := ih ht j hj
        simp only [List.getElem_cons_succ, hcons, if_pos hav]
        rw [hiff]
        omega
    · have h0 : searchsorted t v = 0 := by
        refine List.countP_eq_zero.mpr ?_
        intro x hx
        simp only [decide_eq_true_eq]
        intro hxv
        exact hav ((ha x hx).trans hxv)
      rcases i with _ | j
      · simp [hcons, hav, h0]
      · have hj : j < t.length := by simpa using hi
        have hgt : v ≤ t[j] := by
          have hmem := ha t[j] (t.getElem_mem hj)
          exact (not_lt.mp hav).trans hmem.le
        simp [hcons, hav, h0, not_lt.mpr hgt]

/-- Entry formula for the mirrored half-grid layout
`(-right[:0:-1]) ++ right` used by `make_coarse_plasma_grid` and the
odd-fineness branch of `make_fine_plasma_grid`. -/
lemma mirror_getElem (g : ℕ → ℚ) (R i : ℕ)
    (hi : i < (((((List.range R).map g).drop 1).reverse.map fun x => -x) ++
        (List.range R).map g).length) :
    (((((List.range R).map g).drop 1).reverse.map fun x => -x) ++
        (List.range R).map g)[i]
      = if i < R - 1 then -(g (R - 1 - i)) else g (i - (R - 1)) := by
  have hi' : i < (R - 1) + R := by simpa using hi
  by_cases hc : i < R - 1
  · rw [if_pos hc]
    rw [List.getElem_append_left (by simp; omega)]
    rw [List.getElem_map]
    rw [List.getElem_reverse]
    rw [List.getElem_drop]
    rw [List.getElem_map]
    rw [List.getElem_range]
    congr 2
    simp
    omega
  · rw [if_neg hc]
    rw [List.getElem_append_right (by simp; omega)]
    rw [List.getElem_map]
    rw [List.getElem_range]
    congr 1
    simp

/-- Entry formula for the fully mirrored layout `(-right[::-1]) ++ right`
used by the even-fineness branch of `make_fine_plasma_grid`. -/
lemma mirrorFull_getElem (g : ℕ → ℚ) (R i : ℕ)
    (hi : i < ((((List.range R).map g).reverse.map fun x => -x) ++
        (List.range R).map g).length) :
    ((((List.range R).map g).reverse.map fun x => -x) ++
        (List.range R).map g)[i]
      = if i < R then -(g (R - 1 - i)) else g (i - R) := by
  have hi' : i < R + R := by simpa using hi
  by_cases hc : i < R
  · rw [if_pos hc]
    rw [List.getElem_append_left (by simp; omega)]
    rw [List.getElem_map]
    rw [List.getElem_reverse]
    rw [List.getElem_map]
    rw [List.getElem_range]
    congr 2
    simp
  · rw [if_neg hc]
    rw [List.getElem_append_right (by simp; omega)]
    rw [List.getElem_map]
    rw [List.getElem_range]
    congr 1
    simp

/-- Length of the coarse grid: `(R - 1) + R` with `R = steps // (2·coarseness)`. -/
lemma coarse_length (steps : ℕ) (s : ℚ) (c : ℕ) :
    (make_coarse_plasma_grid steps s c).length
      = (steps / (c * 2) - 1) + steps / (c * 2) := by
  simp only [make_coarse_plasma_grid, List.length_append, List.length_map,
    List.length_reverse, List.length_drop, List.length_range]

/-- Closed form of the coarse grid: entry `i` is `(i + 1 - R) · (s·c)`. -/
lemma coarse_getElem (steps : ℕ) (s : ℚ) (c : ℕ) (i : ℕ)
    (hi : i < (make_coarse_plasma_grid steps s c).length) :
    (make_coarse_plasma_grid steps s c)[i]
      = ((i : ℚ) + 1 - (steps / (c * 2) : ℕ)) * (s * c) := by
  have hlen := coarse_length steps s c
  set R := steps / (c * 2) with hR
  have hR1 : 1 ≤ R := by omega
  have hi2 : i < (((((List.range R).map fun j : ℕ => (j : ℚ) * (s * c)).drop
      1).reverse.map fun x => -x) ++
      ((List.range R).map fun j : ℕ => (j : ℚ) * (s * c))).length := by
    simpa [make_coarse_plasma_grid, ← hR] using hi
  have hform := mirror_getElem (fun j : ℕ => (j : ℚ) * (s * c)) R i hi2
  have hgoal : (make_coarse_plasma_grid steps s c)[i]
      = if i < R - 1 then -(((R - 1 - i : ℕ) : ℚ) * (s * c))
        else ((i - (R - 1) : ℕ) : ℚ) * (s * c) := by
    simpa [make_coarse_plasma_grid, ← hR] using hform
  rw [hgoal]
  by_cases hc : i < R - 1
  · rw [if_pos hc]
    have hcast : ((R - 1 - i : ℕ) : ℚ) = (R : ℚ) - 1 - i := by
      push_cast [Nat.cast_sub (by omega : i ≤ R - 1), Nat.cast_sub hR1]
      ring
    rw [hcast]; ring
  · rw [if_neg hc]
    have hcast : ((i - (R - 1) : ℕ) : ℚ) = (i : ℚ) + 1 - R := by
      push_cast [Nat.cast_sub (by omega : R - 1 ≤ i), Nat.cast_sub hR1]
      ring
    rw [hcast]

/-- Length of the fine grid, odd fineness: `(M - 1) + M` with
`M = steps // 2 * fineness`. -/
lemma fine_length_odd (steps : ℕ) (s : ℚ) (f : ℕ) (hf : f % 2 = 1) :
    (make_fine_plasma_grid steps s f).length
      = (steps / 2 * f - 1) + steps / 2 * f := by
  simp only [make_fine_plasma_grid, if_pos hf, List.length_append,
    List.length_map, List.length_reverse, List.length_drop, List.length_range]

/-- Length of the fine grid, even fineness: `M + M`. -/
lemma fine_length_even (steps : ℕ) (s : ℚ) (f : ℕ) (hf : ¬ f % 2 = 1) :
    (make_fine_plasma_grid steps s f).length
      = steps / 2 * f + steps / 2 * f := by
  simp only [make_fine_plasma_grid, if_neg hf, List.length_append,
    List.length_map, List.length_reverse, List.length_range]

/-- Closed form of the fine grid, odd fineness: entry `i` is
`(i + 1 - M) · (s/f)`. -/
lemma fine_getElem_odd (steps : ℕ) (s : ℚ) (f : ℕ) (hf : f % 2 = 1) (i : ℕ)
    (hi : i < (make_fine_plasma_grid steps s f).length) :
    (make_fine_plasma_grid steps s f)[i]
      = ((i : ℚ) + 1 - (steps / 2 * f : ℕ)) * (s / f) := by
  have hlen := fine_length_odd steps s f hf
  set M := steps / 2 * f with hM
  have hM1 : 1 ≤ M := by omega
  have hi2 : i < (((((List.range M).map fun j : ℕ => (j : ℚ) * (s / f)).drop
      1).reverse.map fun x => -x) ++
      ((List.range M).map fun j : ℕ => (j : ℚ) * (s / f))).length := by
    simpa [make_fine_plasma_grid, if_pos hf, ← hM] using hi
  have hform := mirror_getElem (fun j : ℕ => (j : ℚ) * (s / f)) M i hi2
  have hgoal : (make_fine_plasma_grid steps s f)[i]
      = if i < M - 1 then -(((M - 1 - i : ℕ) : ℚ) * (s / f))
        else ((i - (M - 1) : ℕ) : ℚ) * (s / f) := by
    simpa [make_fine_plasma_grid, if_pos hf, ← hM] using hform
  rw [hgoal]
  by_cases hc : i < M - 1
  · rw [if_pos hc]
    have hcast : ((M - 1 - i : ℕ) : ℚ) = (M : ℚ) - 1 - i := by
      push_cast [Nat.cast_sub (by omega : i ≤ M - 1), Nat.cast_sub hM1]
      ring
    rw [hcast]; ring
  · rw [if_neg hc]
    have hcast : ((i - (M - 1) : ℕ) : ℚ) = (i : ℚ) + 1 - M := by
      push_cast [Nat.cast_sub (by omega : M - 1 ≤ i), Nat.cast_sub hM1]
      ring
    rw [hcast]

/-- Closed form of the fine grid, even fineness: entry `i` is
`(i + 1/2 - M) · (s/f)`. -/
lemma fine_getElem_even (steps : ℕ) (s : ℚ) (f : ℕ) (hf : ¬ f % 2 = 1) (i : ℕ)
    (hi : i < (make_fine_plasma_grid steps s f).length) :
    (make_fine_plasma_grid steps s f)[i]
      = ((i : ℚ) + 1 / 2 - (steps / 2 * f : ℕ)) * (s / f) := by
  have hlen := fine_length_even steps s f hf
  set M := steps / 2 * f with hM
  have hM1 : 1 ≤ M := by omega
  have hi2 : i < ((((List.range M).map
      fun j : ℕ => ((1 : ℚ) / 2 + j) * (s / f)).reverse.map fun x => -x) ++
      ((List.range M).map fun j : ℕ => ((1 : ℚ) / 2 + j) * (s / f))).length := by
    simpa [make_fine_plasma_grid, if_neg hf, ← hM] using hi
  have hform := mirrorFull_getElem
    (fun j : ℕ => ((1 : ℚ) / 2 + j) * (s / f)) M i hi2
  have hgoal : (make_fine_plasma_grid steps s f)[i]
      = if i < M then -(((1 : ℚ) / 2 + ((M - 1 - i : ℕ) : ℚ)) * (s / f))
        else ((1 : ℚ) / 2 + ((i - M : ℕ) : ℚ)) * (s / f) := by
    simpa [make_fine_plasma_grid, if_neg hf, ← hM] using hform
  rw [hgoal]
  by_cases hc : i < M
  · rw [if_pos hc]
    have hcast : ((M - 1 - i : ℕ) : ℚ) = (M : ℚ) - 1 - i := by
      push_cast [Nat.cast_sub (by omega : i ≤ M - 1), Nat.cast_sub hM1]
      ring
    rw [hcast]; ring
  · rw [if_neg hc]
    have hcast : ((i - M : ℕ) : ℚ) = (i : ℚ) - M := by
      push_cast [Nat.cast_sub (by omega : M ≤ i)]
      ring
    rw [hcast]; ring

/-- The coarse grid is the affine sequence with base `(1 - R)·(s·c)` and
spacing `s·c`. -/
lemma coarse_affine (steps : ℕ) (s : ℚ) (c : ℕ) :
    AffineList (make_coarse_plasma_grid steps s c)
      ((1 - (steps / (c * 2) : ℕ)) * (s * c)) (s * c) := by
  intro i hi
  rw [coarse_getElem steps s c i hi]
  ring

/-- An affine list with positive spacing is strictly sorted. -/
lemma affine_sorted {l : List ℚ} {base p : ℚ} (hp : 0 < p)
    (hl : AffineList l base p) : l.Sorted (· < ·) := by
  refine List.pairwise_iff_get.mpr ?_
  intro a b hab
  rw [List.get_eq_getElem, List.get_eq_getElem, hl a a.isLt, hl b b.isLt]
  have hab' : ((a : ℕ) : ℚ) < ((b : ℕ) : ℚ) := by exact_mod_cast hab
  have := mul_lt_mul_of_pos_right hab' hp
  linarith

lemma affine_idx {l : List ℚ} {base p : ℚ} (hl : AffineList l base p)
    (i : ℕ) (hi : i < l.length) : idx l (i : ℤ) = base + i * p := by
  rw [idx_natCast l i hi, hl i hi]

/-- If `v` is at or below the first grid node, the insertion position is `0`. -/
lemma affine_ss_zero {l : List ℚ} {base p : ℚ} (hp : 0 < p)
    (hl : AffineList l base p) (hlen : 1 ≤ l.length) {v : ℚ}
    (hv : v ≤ idx l 0) : searchsorted l v = 0 := by
  refine List.countP_eq_zero.mpr ?_
  intro x hx
  simp only [decide_eq_true_eq]
  obtain ⟨i, hi, rfl⟩ := List.mem_iff_getElem.mp hx
  rw [hl i hi]
  have h0 : idx l 0 = base := by
    have := affine_idx hl 0 (by omega)
    simpa using this
  have : (0 : ℚ) ≤ (i : ℚ) * p := by positivity
  rw [h0] at hv
  linarith

/-- If `v` is strictly above the last grid node, the insertion position is the
length of the grid. -/
lemma affine_ss_length {l : List ℚ} {base p : ℚ} (hp : 0 < p)
    (hl : AffineList l base p) (hlen : 1 ≤ l.length) {v : ℚ}
    (hv : idx l ((l.length : ℤ) - 1) < v) : searchsorted l v = l.length := by
  have hlast : idx l ((l.length : ℤ) - 1) = base + ((l.length - 1 : ℕ) : ℚ) * p := by
    have hcast : ((l.length : ℤ) - 1) = ((l.length - 1 : ℕ) : ℤ) := by omega
    rw [hcast]
    exact affine_idx hl (l.length - 1) (by omega)
  unfold searchsorted
  refine List.countP_eq_length.mpr ?_
  intro x hx
  simp only [decide_eq_true_eq]
  obtain ⟨i, hi, rfl⟩ := List.mem_iff_getElem.mp hx
  rw [hl i hi]
  rw [hlast] at hv
  have hle : (i : ℚ) ≤ ((l.length - 1 : ℕ) : ℚ) := by
    exact_mod_cast (by omega : i ≤ l.length - 1)
  nlinarith

/-- Index ranges of the interpolation table:
`0 ≤ indices_prev ≤ indices_next ≤ Nc - 1`. -/
lemma idx_order (l : List ℚ) (v : ℚ) (hlen : 1 ≤ l.length) :
    0 ≤ idxPrevAt l v ∧ idxPrevAt l v ≤ idxNextAt l v ∧
      idxNextAt l v ≤ (l.length : ℤ) - 1 := by
  have hlen' : (1 : ℤ) ≤ (l.length : ℤ) := by exact_mod_cast hlen
  have hS : (0 : ℤ) ≤ (searchsorted l v : ℤ) := Int.natCast_nonneg _
  unfold idxPrevAt idxNextAt clip
  omega

/-- The two interpolation weights always sum to 1. -/
lemma inf_sum {l : List ℚ} {base p : ℚ} (hp : 0 < p) (hl : AffineList l base p)
    (hlen : 1 ≤ l.length) (v : ℚ) :
    infPrevAt l p v + infNextAt l p v = 1 := by
  have hS := searchsorted_le_length l v
  have hlen' : (1 : ℤ) ≤ (l.length : ℤ) := by exact_mod_cast hlen
  by_cases hb1 : idxPrevAt l v = (l.length : ℤ) - 1
  · simp [infPrevAt, infNextAt, hb1]
  · by_cases hb2 : idxNextAt l v = 0
    · simp [infPrevAt, infNextAt, hb1, hb2]
    · have hS1 : 1 ≤ searchsorted l v := by
        rcases Nat.eq_zero_or_pos (searchsorted l v) with h0 | h1
        · exfalso
          apply hb2
          unfold idxNextAt clip
          rw [h0]
          simp
          omega
        · exact h1
      have hS2 : searchsorted l v ≤ l.length - 1 := by
        by_contra hcon
        apply hb1
        unfold idxPrevAt clip
        have : (l.length : ℤ) ≤ (searchsorted l v : ℤ) := by omega
        omega
      have hnext : idxNextAt l v = (searchsorted l v : ℤ) := by
        unfold idxNextAt clip
        have h2' : (searchsorted l v : ℤ) ≤ (l.length : ℤ) - 1 := by omega
        omega
      have hprev : idxPrevAt l v = (searchsorted l v : ℤ) - 1 := by
        unfold idxPrevAt clip
        have h1' : (1 : ℤ) ≤ (searchsorted l v : ℤ) := by exact_mod_cast hS1
        have h2' : (searchsorted l v : ℤ) ≤ (l.length : ℤ) - 1 := by omega
        omega
      rw [infPrevAt, infNextAt, if_neg hb1, if_neg hb1, if_neg hb2, if_neg hb2,
        hnext, hprev]
      have hSlt : searchsorted l v < l.length := by omega
      have e1 : idx l (searchsorted l v : ℤ) = base + (searchsorted l v : ℚ) * p :=
        affine_idx hl _ hSlt
      have e2 : idx l ((searchsorted l v : ℤ) - 1)
          = base + ((searchsorted l v : ℚ) - 1) * p := by
        have hcast : ((searchsorted l v : ℤ) - 1)
            = ((searchsorted l v - 1 : ℕ) : ℤ) := by omega
        rw [hcast, affine_idx hl _ (by omega : searchsorted l v - 1 < l.length)]
        have : ((searchsorted l v - 1 : ℕ) : ℚ) = (searchsorted l v : ℚ) - 1 := by
          push_cast [Nat.cast_sub hS1]; ring
        rw [this]
      rw [e1, e2]
      field_simp
      ring

/-- In the interior case (`1 ≤ S ≤ Nc - 1`), `v` lies in the half-open cell
`(grid[S-1], grid[S]]`. -/
lemma interior_bounds {l : List ℚ} {base p : ℚ} (hp : 0 < p)
    (hl : AffineList l base p) (hlen : 1 ≤ l.length) {v : ℚ}
    (hS1 : 1 ≤ searchsorted l v) (hS2 : searchsorted l v ≤ l.length - 1) :
    base + ((searchsorted l v : ℚ) - 1) * p < v ∧
      v ≤ base + (searchsorted l v : ℚ) * p := by
  have hsorted := affine_sorted hp hl
  have hSlt : searchsorted l v < l.length := by omega
  have hS1lt : searchsorted l v - 1 < l.length := by omega
  constructor
  · have hiff := sorted_getElem_lt_iff hsorted v (searchsorted l v - 1) hS1lt
    have hlt : l[searchsorted l v - 1] < v := hiff.mpr (by omega)
    rw [hl _ hS1lt] at hlt
    have hcast : ((searchsorted l v - 1 : ℕ) : ℚ) = (searchsorted l v : ℚ) - 1 := by
      push_cast [Nat.cast_sub hS1]; ring
    rwa [hcast] at hlt
  · have hiff := sorted_getElem_lt_iff hsorted v (searchsorted l v) hSlt
    have hge2 : ¬ l[searchsorted l v] < v := by
      intro hcon
      exact absurd (hiff.mp hcon) (by omega)
    rw [hl _ hSlt] at hge2
    exact not_lt.mp hge2

/-- Every interpolation weight lies in `[0, 1]`. -/
lemma inf_range {l : List ℚ} {base p : ℚ} (hp : 0 < p)
    (hl : AffineList l base p) (hlen : 1 ≤ l.length) (v : ℚ) :
    (0 ≤ infPrevAt l p v ∧ infPrevAt l p v ≤ 1) ∧
      (0 ≤ infNextAt l p v ∧ infNextAt l p v ≤ 1) := by
  have hS := searchsorted_le_length l v
  have hlen' : (1 : ℤ) ≤ (l.length : ℤ) := by exact_mod_cast hlen
  by_cases hb1 : idxPrevAt l v = (l.length : ℤ) - 1
  · simp [infPrevAt, infNextAt, hb1]
  · by_cases hb2 : idxNextAt l v = 0
    · simp [infPrevAt, infNextAt, hb1, hb2]
    · have hS1 : 1 ≤ searchsorted l v := by
        rcases Nat.eq_zero_or_pos (searchsorted l v) with h0 | h1
        · exfalso
          apply hb2
          unfold idxNextAt clip
          rw [h0]
          simp
          omega
        · exact h1
      have hS2 : searchsorted l v ≤ l.length - 1 := by
        by_contra hcon
        apply hb1
        unfold idxPrevAt clip
        have : (l.length : ℤ) ≤ (searchsorted l v : ℤ) := by omega
        omega
      have hnext : idxNextAt l v = (searchsorted l v : ℤ) := by
        unfold idxNextAt clip
        have h2' : (searchsorted l v : ℤ) ≤ (l.length : ℤ) - 1 := by omega
        omega
      have hprev : idxPrevAt l v = (searchsorted l v : ℤ) - 1 := by
        unfold idxPrevAt clip
        have h1' : (1 : ℤ) ≤ (searchsorted l v : ℤ) := by exact_mod_cast hS1
        have h2' : (searchsorted l v : ℤ) ≤ (l.length : ℤ) - 1 := by omega
        omega
      obtain ⟨hv1, hv2⟩ := interior_bounds hp hl hlen hS1 hS2
      have hSlt : searchsorted l v < l.length := by omega
      have e1 : idx l (searchsorted l v : ℤ) = base + (searchsorted l v : ℚ) * p :=
        affine_idx hl _ hSlt
      have e2 : idx l ((searchsorted l v : ℤ) - 1)
          = base + ((searchsorted l v : ℚ) - 1) * p := by
        have hcast : ((searchsorted l v : ℤ) - 1)
            = ((searchsorted l v - 1 : ℕ) : ℤ) := by omega
        rw [hcast, affine_idx hl _ (by omega : searchsorted l v - 1 < l.length)]
        have : ((searchsorted l v - 1 : ℕ) : ℚ) = (searchsorted l v : ℚ) - 1 := by
          push_cast [Nat.cast_sub hS1]; ring
        rw [this]
      rw [infPrevAt, infNextAt, if_neg hb1, if_neg hb1, if_neg hb2, if_neg hb2,
        hnext, hprev, e1, e2]
      constructor
      · constructor
        · apply div_nonneg _ hp.le
          linarith
        · rw [div_le_one hp]
          linarith
      · constructor
        · apply div_nonneg _ hp.le
          linarith
        · rw [div_le_one hp]
          linarith

/-- The leftmost case: if `v` is at or below the first coarse node and the
grid has at least two nodes, the full weight goes to the right neighbour. -/
lemma inf_left_boundary {l : List ℚ} {base p : ℚ} (hp : 0 < p)
    (hl : AffineList l base p) (hlen : 2 ≤ l.length) {v : ℚ}
    (hv : v ≤ idx l 0) :
    infPrevAt l p v = 0 ∧ infNextAt l p v = 1 := by
  have hS0 : searchsorted l v = 0 := affine_ss_zero hp hl (by omega) hv
  have hlen' : (2 : ℤ) ≤ (l.length : ℤ) := by exact_mod_cast hlen
  have hprev : idxPrevAt l v = 0 := by
    unfold idxPrevAt clip
    rw [hS0]
    simp
    omega
  have hnext : idxNextAt l v = 0 := by
    unfold idxNextAt clip
    rw [hS0]
    simp
    omega
  have hb1 : ¬ idxPrevAt l v = (l.length : ℤ) - 1 := by
    rw [hprev]; omega
  rw [infPrevAt, infNextAt, if_neg hb1, if_neg hb1, if_pos hnext, if_pos hnext]
  exact ⟨rfl, rfl⟩

/-- The rightmost case: if `v` is strictly above the last coarse node, the
full weight goes to the left neighbour. -/
lemma inf_right_boundary {l : List ℚ} {base p : ℚ} (hp : 0 < p)
    (hl : AffineList l base p) (hlen : 1 ≤ l.length) {v : ℚ}
    (hv : idx l ((l.length : ℤ) - 1) < v) :
    infPrevAt l p v = 1 ∧ infNextAt l p v = 0 := by
  have hSL : searchsorted l v = l.length := affine_ss_length hp hl hlen hv
  have hlen' : (1 : ℤ) ≤ (l.length : ℤ) := by exact_mod_cast hlen
  have hprev : idxPrevAt l v = (l.length : ℤ) - 1 := by
    unfold idxPrevAt clip
    rw [hSL]
    omega
  rw [infPrevAt, infNextAt, if_pos hprev, if_pos hprev]
  exact ⟨rfl, rfl⟩

/-- `make_plasma` succeeds whenever the coarse grid is nonempty, returning
exactly the particle/interpolation bundle of its `.ok` branch. -/
lemma make_plasma_eq (steps : ℕ) (s : ℚ) (c f : ℕ)
    (hNc : 1 ≤ (make_coarse_plasma_grid steps s c).length) :
    make_plasma steps s c f = .ok {
      coarse_x_init := broadcast_col (make_coarse_plasma_grid steps s c)
      coarse_y_init := broadcast_row (make_coarse_plasma_grid steps s c)
      coarse_x_offt := constM (make_coarse_plasma_grid steps s c).length 0
      coarse_y_offt := constM (make_coarse_plasma_grid steps s c).length 0
      coarse_px := constM (make_coarse_plasma_grid steps s c).length 0
      coarse_py := constM (make_coarse_plasma_grid steps s c).length 0
      coarse_pz := constM (make_coarse_plasma_grid steps s c).length 0
      coarse_m := constM (make_coarse_plasma_grid steps s c).length
        (ELECTRON_MASS * (c : ℚ) ^ 2)
      coarse_q := constM (make_coarse_plasma_grid steps s c).length
        (ELECTRON_CHARGE * (c : ℚ) ^ 2)
      virt_params := {
        influence_prev := (make_fine_plasma_grid steps s f).map
          (infPrevAt (make_coarse_plasma_grid steps s c) (s * c))
        influence_next := (make_fine_plasma_grid steps s f).map
          (infNextAt (make_coarse_plasma_grid steps s c) (s * c))
        indices_prev := (make_fine_plasma_grid steps s f).map
          (idxPrevAt (make_coarse_plasma_grid steps s c))
        indices_next := (make_fine_plasma_grid steps s f).map
          (idxNextAt (make_coarse_plasma_grid steps s c))
        fine_grid := make_fine_plasma_grid steps s f } } := by
  simp only [make_plasma]
  rw [if_neg (by rintro ⟨h0, -⟩; omega)]

/-- C2 (code bug): for the valid configuration `cfgEx` (coarseness 2), the
`ParticleState` returned by `init_plasma` has its `m` array uniformly equal
to `ELECTRON_CHARGE · coarseness² = -4` and its `q` array uniformly equal to
`ELECTRON_MASS · coarseness² = +4` — the opposite of the claim. The unpack
`..., q, m, virt_params = make_plasma(...)` (line 232) receives
`make_plasma`'s return components `(..., coarse_m, coarse_q, virt_params)`
(line 202), so the two arrays are swapped. -/
theorem C2_mass_charge_swapped :
    ∃ fp : Fields × Particles × Currents × ConstArr,
      init_plasma zeroDeposit cfgEx = .ok fp ∧
      fp.2.1.m = constM 3 (-4) ∧
      fp.2.1.q = constM 3 4 ∧
      ¬ fp.2.1.m = constM 3 (ELECTRON_MASS * ((2 : ℕ) : ℚ) ^ 2) ∧
      ¬ fp.2.1.q = constM 3 (ELECTRON_CHARGE * ((2 : ℕ) : ℚ) ^ 2) := by
  have hNc : (make_coarse_plasma_grid 9 1 2).length = 3 := by decide
  have hmp := make_plasma_eq 9 1 2 2 (by omega)
  have hinit : init_plasma zeroDeposit cfgEx = .ok
      (⟨constM 13 0, constM 13 0, constM 13 0, constM 13 0, constM 13 0,
        constM 13 0, constM 13 0⟩,
       ⟨broadcast_col (make_coarse_plasma_grid 9 1 2),
        broadcast_row (make_coarse_plasma_grid 9 1 2),
        constM 3 0, constM 3 0, constM 3 0, constM 3 0, constM 3 0,
        constM 3 (ELECTRON_MASS * ((2 : ℕ) : ℚ) ^ 2),
        constM 3 (ELECTRON_CHARGE * ((2 : ℕ) : ℚ) ^ 2)⟩,
       ⟨constM 13 0, constM 13 0, constM 13 0, constM 13 0⟩,
       ⟨zeroDeposit 13 1 2 2 (constM 3 0) (constM 3 0) (constM 3 0)
          (constM 3 0) (constM 3 0)
          (constM 3 (ELECTRON_CHARGE * ((2 : ℕ) : ℚ) ^ 2))
          (constM 3 (ELECTRON_MASS * ((2 : ℕ) : ℚ) ^ 2))
          { influence_prev := (make_fine_plasma_grid 9 1 2).map
              (infPrevAt (make_coarse_plasma_grid 9 1 2) ((1 : ℚ) * ((2 : ℕ) : ℚ)))
            influence_next := (make_fine_plasma_grid 9 1 2).map
              (infNextAt (make_coarse_plasma_grid 9 1 2) ((1 : ℚ) * ((2 : ℕ) : ℚ)))
            indices_prev := (make_fine_plasma_grid 9 1 2).map
              (idxPrevAt (make_coarse_plasma_grid 9 1 2))
            indices_next := (make_fine_plasma_grid 9 1 2).map
              (idxNextAt (make_coarse_plasma_grid 9 1 2))
            fine_grid := make_fine_plasma_grid 9 1 2 },
        dirichlet_matrix 13 ((1 : ℚ) : ℝ), mixed_matrix 13 ((1 : ℚ) : ℝ) true,
        neumann_matrix 13 ((1 : ℚ) : ℝ),
        (make_fine_plasma_grid 9 1 2).map
          (infPrevAt (make_coarse_plasma_grid 9 1 2) ((1 : ℚ) * ((2 : ℕ) : ℚ))),
        (make_fine_plasma_grid 9 1 2).map
          (infNextAt (make_coarse_plasma_grid 9 1 2) ((1 : ℚ) * ((2 : ℕ) : ℚ))),
        (make_fine_plasma_grid 9 1 2).map
          (idxPrevAt (make_coarse_plasma_grid 9 1 2)),
        (make_fine_plasma_grid 9 1 2).map
          (idxNextAt (make_coarse_plasma_grid 9 1 2)),
        make_fine_plasma_grid 9 1 2⟩) := by
    simp only [init_plasma, cfgEx]
    rw [if_pos (by norm_num), if_pos (by norm_num), if_neg (by norm_num)]
    rw [hmp]
    rfl
  refine ⟨_, hinit, ?_, ?_, ?_, ?_⟩
  · norm_num [ELECTRON_CHARGE]
  · norm_num [ELECTRON_MASS]
  · intro hcon
    have h00 := congrArg (fun l : List (List ℚ) => (l.getD 0 []).getD 0 0) hcon
    simp only [constM, List.range_succ] at h00
    norm_num [ELECTRON_CHARGE, ELECTRON_MASS] at h00
  · intro hcon
    have h00 := congrArg (fun l : List (List ℚ) => (l.getD 0 []).getD 0 0) hcon
    simp only [constM, List.range_succ] at h00
    norm_num [ELECTRON_CHARGE, ELECTRON_MASS] at h00

/-- C3: with a working window that fits at least one coarse plasma cell,
`init_plasma` returns a state exactly when `grid_steps` is odd and
`reflect_padding_steps > plasma_coarseness + 1` and
`reflect_padding_steps > 2`; in particular
`reflect_padding_steps = plasma_coarseness + 2` (other parameters valid)
succeeds. -/
theorem C3_init_validation (dep : Deposition) (cfg : Config)
    (hc : 1 ≤ cfg.plasma_coarseness)
    (hNc : 1 ≤ (make_coarse_plasma_grid
      (cfg.window_width_steps - cfg.plasma_padding_steps * 2)
      cfg.window_width_step_size cfg.plasma_coarseness).length) :
    ((init_plasma dep cfg).isOk = true ↔
      (cfg.window_width_steps % 2 = 1 ∧
       cfg.plasma_coarseness + 1 < cfg.reflect_padding_steps ∧
       2 < cfg.reflect_padding_steps)) ∧
    (cfg.window_width_steps % 2 = 1 →
      cfg.reflect_padding_steps = cfg.plasma_coarseness + 2 →
      (init_plasma dep cfg).isOk = true) := by
  have hmp := make_plasma_eq
    (cfg.window_width_steps - cfg.plasma_padding_steps * 2)
    cfg.window_width_step_size cfg.plasma_coarseness cfg.plasma_fineness hNc
  have hiff : (init_plasma dep cfg).isOk = true ↔
      (cfg.window_width_steps % 2 = 1 ∧
       cfg.plasma_coarseness + 1 < cfg.reflect_padding_steps ∧
       2 < cfg.reflect_padding_steps) := by
    by_cases h1 : cfg.window_width_steps % 2 = 1
    · by_cases h2 : cfg.plasma_coarseness + 1 < cfg.reflect_padding_steps
      · by_cases h3 : cfg.reflect_padding_steps ≤ 2
        · have hval : init_plasma dep cfg = .error .configException := by
            simp only [init_plasma]
            rw [if_pos h1, if_pos h2, if_pos h3]
          rw [hval]
          simp only [Except.isOk]
          constructor
          · intro hcon; exact absurd hcon (by decide)
          · rintro ⟨-, -, hcon⟩; omega
        · have hval : ∃ fp, init_plasma dep cfg = .ok fp := by
            simp only [init_plasma]
            rw [if_pos h1, if_pos h2, if_neg h3, hmp]
            exact ⟨_, rfl⟩
          obtain ⟨fp, hval⟩ := hval
          rw [hval]
          simp only [Except.isOk]
          exact ⟨fun _ => ⟨h1, h2, by omega⟩, fun _ => rfl⟩
      · have hval : init_plasma dep cfg = .error .assertionError := by
          simp only [init_plasma]
          rw [if_pos h1, if_neg h2]
        rw [hval]
        simp only [Except.isOk]
        constructor
        · intro hcon; exact absurd hcon (by decide)
        · rintro ⟨-, hcon, -⟩; omega
    · have hval : init_plasma dep cfg = .error .assertionError := by
        simp only [init_plasma]
        rw [if_neg h1]
      rw [hval]
      simp only [Except.isOk]
      constructor
      · intro hcon; exact absurd hcon (by decide)
      · rintro ⟨hcon, -, -⟩; omega
  refine ⟨hiff, fun hodd heq => hiff.mpr ⟨hodd, by omega, by omega⟩⟩

/-- C3 witness: with `grid_steps = 9` (odd), `coarseness = 2` and
`reflect_padding_steps = 4 = coarseness + 2`, initialization succeeds, and
the success condition is exactly the conjunction of the three checks. -/
theorem C3_witness :
    ((init_plasma zeroDeposit cfgC3).isOk = true ↔
      ((9 : ℕ) % 2 = 1 ∧ (2 : ℕ) + 1 < 4 ∧ (2 : ℕ) < 4)) ∧
    ((9 : ℕ) % 2 = 1 → (4 : ℕ) = 2 + 2 →
      (init_plasma zeroDeposit cfgC3).isOk = true) :=
  C3_init_validation zeroDeposit cfgC3 (by norm_num [cfgC3]) (by decide)

/-- C9: for every valid configuration, `init_plasma` builds the three
spectral matrices at the full `grid_steps` while the coarse grid, fine grid
and interpolation table are built at the padded working size
`grid_steps - 2·plasma_padding_steps`, and the field/current arrays are
zero-initialized at `grid_steps × grid_steps`. -/
theorem C9_build_sizes (dep : Deposition) (cfg : Config)
    (hodd : cfg.window_width_steps % 2 = 1)
    (hrefl : cfg.plasma_coarseness + 1 < cfg.reflect_padding_steps)
    (hrefl2 : ¬ cfg.reflect_padding_steps ≤ 2)
    (hNc : 1 ≤ (make_coarse_plasma_grid
      (cfg.window_width_steps - cfg.plasma_padding_steps * 2)
      cfg.window_width_step_size cfg.plasma_coarseness).length) :
    ∃ fp : Fields × Particles × Currents × ConstArr,
      init_plasma dep cfg = .ok fp ∧
      fp.2.2.2.dirichlet_matrix = dirichlet_matrix cfg.window_width_steps
        (cfg.window_width_step_size : ℝ) ∧
      fp.2.2.2.field_mixed_matrix = mixed_matrix cfg.window_width_steps
        (cfg.window_width_step_size : ℝ) cfg.field_solver_subtraction_trick ∧
      fp.2.2.2.neumann_matrix = neumann_matrix cfg.window_width_steps
        (cfg.window_width_step_size : ℝ) ∧
      fp.2.2.2.fine_grid = make_fine_plasma_grid
        (cfg.window_width_steps - cfg.plasma_padding_steps * 2)
        cfg.window_width_step_size cfg.plasma_fineness ∧
      fp.2.1.x_init = broadcast_col (make_coarse_plasma_grid
        (cfg.window_width_steps - cfg.plasma_padding_steps * 2)
        cfg.window_width_step_size cfg.plasma_coarseness) ∧
      fp.2.2.2.influence_prev = (make_fine_plasma_grid
        (cfg.window_width_steps - cfg.plasma_padding_steps * 2)
        cfg.window_width_step_size cfg.plasma_fineness).map
          (infPrevAt (make_coarse_plasma_grid
            (cfg.window_width_steps - cfg.plasma_padding_steps * 2)
            cfg.window_width_step_size cfg.plasma_coarseness)
            (cfg.window_width_step_size * cfg.plasma_coarseness)) ∧
      fp.1.Ex = constM cfg.window_width_steps 0 ∧
      fp.1.Ey = constM cfg.window_width_steps 0 ∧
      fp.1.Ez = constM cfg.window_width_steps 0 ∧
      fp.1.Bx = constM cfg.window_width_steps 0 ∧
      fp.1.By = constM cfg.window_width_steps 0 ∧
      fp.1.Bz = constM cfg.window_width_steps 0 ∧
      fp.1.Phi = constM cfg.window_width_steps 0 ∧
      fp.2.2.1.ro = constM cfg.window_width_steps 0 ∧
      fp.2.2.1.jx = constM cfg.window_width_steps 0 ∧
      fp.2.2.1.jy = constM cfg.window_width_steps 0 ∧
      fp.2.2.1.jz = constM cfg.window_width_steps 0 := by
  simp only [init_plasma]
  rw [if_pos hodd, if_pos hrefl, if_neg hrefl2, make_plasma_eq
    (cfg.window_width_steps - cfg.plasma_padding_steps * 2)
    cfg.window_width_step_size cfg.plasma_coarseness cfg.plasma_fineness hNc]
  exact ⟨_, rfl, rfl, rfl, rfl, rfl, rfl, rfl, rfl, rfl, rfl, rfl, rfl, rfl,
    rfl, rfl, rfl, rfl, rfl⟩

/-- C9 witness: the build-size facts at the sample configuration `cfgEx`
(`grid_steps = 13`, padding 2, working window 9). -/
theorem C9_witness :
    ∃ fp : Fields × Particles × Currents × ConstArr,
      init_plasma zeroDeposit cfgEx = .ok fp ∧
      fp.2.2.2.dirichlet_matrix = dirichlet_matrix 13 ((1 : ℚ) : ℝ) ∧
      fp.2.2.2.field_mixed_matrix = mixed_matrix 13 ((1 : ℚ) : ℝ) true ∧
      fp.2.2.2.neumann_matrix = neumann_matrix 13 ((1 : ℚ) : ℝ) ∧
      fp.2.2.2.fine_grid = make_fine_plasma_grid 9 1 2 ∧
      fp.2.1.x_init = broadcast_col (make_coarse_plasma_grid 9 1 2) ∧
      fp.2.2.2.influence_prev = (make_fine_plasma_grid 9 1 2).map
        (infPrevAt (make_coarse_plasma_grid 9 1 2) ((1 : ℚ) * ((2 : ℕ) : ℚ))) ∧
      fp.1.Ex = constM 13 0 ∧
      fp.1.Ey = constM 13 0 ∧
      fp.1.Ez = constM 13 0 ∧
      fp.1.Bx = constM 13 0 ∧
      fp.1.By = constM 13 0 ∧
      fp.1.Bz = constM 13 0 ∧
      fp.1.Phi = constM 13 0 ∧
      fp.2.2.1.ro = constM 13 0 ∧
      fp.2.2.1.jx = constM 13 0 ∧
      fp.2.2.1.jy = constM 13 0 ∧
      fp.2.2.1.jz = constM 13 0 :=
  C9_build_sizes zeroDeposit cfgEx (by norm_num [cfgEx]) (by norm_num [cfgEx])
    (by norm_num [cfgEx]) (by decide)

/-- C1 (code bug): `load_plasma` can never return a bundle, for any
deposition collaborator, configuration and checkpoint: line 273 discards the
freshly initialized `particles` bundle (`_, _, _, const_arrays = ...`) and
line 281 then reads the unassigned local `particles`, so every reload path
ends in an error (`UnboundLocalError` once all seven field arrays are
present, or earlier errors otherwise). In particular the claimed round trip
with a complete persisted checkpoint fails with the unbound-local error. -/
theorem C1_roundtrip_impossible :
    (∀ (dep : Deposition) (cfg : Config)
        (state : String → Option (List (List ℚ))),
      (load_plasma dep cfg state).isOk = false) ∧
    load_plasma zeroDeposit cfgEx chkFull
      = .error (.unboundLocalError "particles") := by
  constructor
  · intro dep cfg state
    simp only [load_plasma, req]
    cases init_plasma dep cfg with
    | error e => rfl
    | ok st =>
      obtain ⟨f, p, cu, k⟩ := st
      cases state "Ex" <;> cases state "Ey" <;> cases state "Ez" <;>
        cases state "Bx" <;> cases state "By" <;> cases state "Bz" <;>
        cases state "Phi" <;> rfl
  · rfl

/-- C4 (code bug): reloading the checkpoint `chkNoRo`, which contains every
required array except `ro`, aborts with the unbound-local `particles` error
(the line-281 bug fires after the seven field arrays are read and before
`ro` is ever looked up), not with a missing-array (`KeyError` /
`CorruptStateError`) failure; no bundle is produced. -/
theorem C4_missing_array_error :
    load_plasma zeroDeposit cfgEx chkNoRo
      = .error (.unboundLocalError "particles") ∧
    chkNoRo "ro" = none ∧
    ¬ load_plasma zeroDeposit cfgEx chkNoRo = .error (.keyError "ro") := by
  have h1 : load_plasma zeroDeposit cfgEx chkNoRo
      = .error (.unboundLocalError "particles") := rfl
  refine ⟨h1, rfl, ?_⟩
  intro hcon
  rw [h1] at hcon
  exact absurd hcon (by simp)

/-- C8: for all valid `(steps, step_size, coarseness)` with positive step size
and positive integer coarseness, the coarse grid is ascending, antisymmetric
(`grid[i] = -grid[N-1-i]`), contains exactly one zero when `N` is odd, and
`make_coarse_plasma_grid 9 1 2 = [-2, 0, 2]`. -/
theorem C8_coarse_grid_props (steps : ℕ) (s : ℚ) (c : ℕ)
    (hs : 0 < s) (hc : 1 ≤ c) :
    (make_coarse_plasma_grid steps s c).Sorted (· < ·) ∧
    (∀ i : ℕ, ∀ hi : i < (make_coarse_plasma_grid steps s c).length,
      (make_coarse_plasma_grid steps s c)[i]
        = -(make_coarse_plasma_grid steps s c)[
            (make_coarse_plasma_grid steps s c).length - 1 - i]) ∧
    (Odd (make_coarse_plasma_grid steps s c).length →
      (make_coarse_plasma_grid steps s c).count 0 = 1) ∧
    make_coarse_plasma_grid 9 1 2 = [-2, 0, 2] := by
  have hc' : (0 : ℚ) < (c : ℚ) := by exact_mod_cast Nat.lt_of_lt_of_le Nat.zero_lt_one hc
  have hp : 0 < s * (c : ℚ) := mul_pos hs hc'
  have haff := coarse_affine steps s c
  have hlen := coarse_length steps s c
  have hsorted := affine_sorted hp haff
  refine ⟨hsorted, ?_, ?_, ?_⟩
  · intro i hi
    have hi2 : (make_coarse_plasma_grid steps s c).length - 1 - i
        < (make_coarse_plasma_grid steps s c).length := by omega
    rw [coarse_getElem steps s c i hi, coarse_getElem steps s c _ hi2]
    rw [hlen] at hi
    have hR1 : 1 ≤ steps / (c * 2) := by omega
    have hz : (((steps / (c * 2) - 1) + steps / (c * 2) - 1 - i : ℕ) : ℤ)
        = 2 * ((steps / (c * 2) : ℕ) : ℤ) - 2 - (i : ℤ) := by omega
    have hcast : (((steps / (c * 2) - 1) + steps / (c * 2) - 1 - i : ℕ) : ℚ)
        = 2 * ((steps / (c * 2) : ℕ) : ℚ) - 2 - (i : ℚ) := by exact_mod_cast hz
    rw [hlen, hcast]
    ring
  · intro hodd
    have hR1 : 1 ≤ steps / (c * 2) := by
      rcases Nat.eq_zero_or_pos (steps / (c * 2)) with h0 | h1
      · rw [h0] at hlen
        rw [hlen] at hodd
        exact absurd hodd (by decide)
      · exact h1
    have hmem : (0 : ℚ) ∈ make_coarse_plasma_grid steps s c := by
      refine List.mem_iff_getElem.mpr ⟨steps / (c * 2) - 1, by omega, ?_⟩
      rw [coarse_getElem steps s c _ (by omega)]
      have : ((steps / (c * 2) - 1 : ℕ) : ℚ) = ((steps / (c * 2) : ℕ) : ℚ) - 1 := by
        push_cast [Nat.cast_sub hR1]; ring
      rw [this]
      ring
    exact List.count_eq_one_of_mem hsorted.nodup hmem
  · norm_num [make_coarse_plasma_grid, List.range_succ]

/-- Entry accessor applied to a matrix built as a double `range`-map. -/
lemma entryR_ofFun (g : ℕ → ℕ → ℝ) (n m i j : ℕ) (hi : i < n) (hj : j < m) :
    entryR ((List.range n).map fun a => (List.range m).map fun b => g a b) i j
      = g i j := by
  unfold entryR
  have hrow : ((List.range n).map fun a =>
      (List.range m).map fun b => g a b).getD i []
      = (List.range m).map fun b => g i b := by
    rw [List.getD_eq_getElem _ _ (by simpa using hi), List.getElem_map,
      List.getElem_range]
  rw [hrow, List.getD_eq_getElem _ _ (by simpa using hj), List.getElem_map,
    List.getElem_range]

lemma lam_zero (N : ℕ) (h : ℝ) : lam N h 0 = 0 := by
  simp [lam]

lemma lam_nonneg (N : ℕ) (h : ℝ) (hh : 0 < h) (k : ℕ) : 0 ≤ lam N h k := by
  unfold lam
  positivity

/-- The shared eigenvalue is strictly positive for the non-zero modes
`1 ≤ k ≤ N - 1`: the sine argument lies in `(0, π/2] ⊆ (0, π)`. -/
lemma lam_pos (N : ℕ) (h : ℝ) (hN : 3 ≤ N) (hh : 0 < h) (k : ℕ)
    (hk1 : 1 ≤ k) (hk2 : k ≤ N - 1) : 0 < lam N h k := by
  have hN1 : (0 : ℝ) < (N : ℝ) - 1 := by
    have : (3 : ℝ) ≤ (N : ℝ) := by exact_mod_cast hN
    linarith
  have hkR : (1 : ℝ) ≤ (k : ℝ) := by exact_mod_cast hk1
  have hkN : (k : ℝ) ≤ (N : ℝ) - 1 := by
    have : (k : ℝ) ≤ ((N - 1 : ℕ) : ℝ) := by exact_mod_cast hk2
    rwa [Nat.cast_sub (by omega), Nat.cast_one] at this
  have harg1 : 0 < (k : ℝ) * Real.pi / (2 * ((N : ℝ) - 1)) := by
    apply div_pos
    · exact mul_pos (by linarith) Real.pi_pos
    · linarith
  have harg2 : (k : ℝ) * Real.pi / (2 * ((N : ℝ) - 1)) < Real.pi := by
    rw [div_lt_iff₀ (by linarith)]
    have h1 : (k : ℝ) * Real.pi ≤ ((N : ℝ) - 1) * Real.pi :=
      mul_le_mul_of_nonneg_right hkN Real.pi_pos.le
    nlinarith [Real.pi_pos]
  have hsin := Real.sin_pos_of_pos_of_lt_pi harg1 harg2
  unfold lam
  positivity

/-- C6: for odd `grid_steps ≥ 3` and positive step size, the Neumann matrix
is `N × N`, its `[0,0]` entry is exactly `0`, and every other entry has a
strictly positive eigenvalue-sum denominator (hence is a finite value) and
equals the unoverridden formula `(1/(λᵢ+λⱼ)) / (2(N-1))²`. -/
theorem C6_neumann_matrix_props (N : ℕ) (h : ℝ) (hN : 3 ≤ N)
    (hodd : N % 2 = 1) (hh : 0 < h) :
    (neumann_matrix N h).length = N ∧
    (∀ row ∈ neumann_matrix N h, row.length = N) ∧
    entryR (neumann_matrix N h) 0 0 = 0 ∧
    (∀ i j : ℕ, i < N → j < N → ¬(i = 0 ∧ j = 0) →
      0 < lam N h i + lam N h j ∧
      entryR (neumann_matrix N h) i j
        = (1 / (lam N h i + lam N h j)) / (2 * ((N : ℝ) - 1)) ^ 2) := by
  refine ⟨by simp [neumann_matrix], ?_, ?_, ?_⟩
  · intro row hrow
    simp only [neumann_matrix, List.mem_map] at hrow
    obtain ⟨a, -, rfl⟩ := hrow
    simp
  · have heq : entryR (neumann_matrix N h) 0 0
        = if (0 : ℕ) = 0 ∧ (0 : ℕ) = 0 then (0 : ℝ)
          else (1 / (lam N h 0 + lam N h 0)) / (2 * ((N : ℝ) - 1)) ^ 2 :=
      entryR_ofFun
        (fun a b => if a = 0 ∧ b = 0 then (0 : ℝ)
          else (1 / (lam N h a + lam N h b)) / (2 * ((N : ℝ) - 1)) ^ 2)
        N N 0 0 (by omega) (by omega)
    rw [heq, if_pos ⟨rfl, rfl⟩]
  · intro i j hi hj hne
    have hpos : 0 < lam N h i + lam N h j := by
      rcases Nat.eq_zero_or_pos i with hi0 | hi1
      · rcases Nat.eq_zero_or_pos j with hj0 | hj1
        · exact absurd ⟨hi0, hj0⟩ hne
        · have := lam_pos N h hN hh j hj1 (by omega)
          have h0 := lam_nonneg N h hh i
          linarith
      · have := lam_pos N h hN hh i hi1 (by omega)
        have h0 := lam_nonneg N h hh j
        linarith
    refine ⟨hpos, ?_⟩
    have heq : entryR (neumann_matrix N h) i j
        = if i = 0 ∧ j = 0 then (0 : ℝ)
          else (1 / (lam N h i + lam N h j)) / (2 * ((N : ℝ) - 1)) ^ 2 :=
      entryR_ofFun
        (fun a b => if a = 0 ∧ b = 0 then (0 : ℝ)
          else (1 / (lam N h a + lam N h b)) / (2 * ((N : ℝ) - 1)) ^ 2)
        N N i j hi hj
    rw [heq, if_neg hne]

/-- C6 witness: the Neumann matrix properties at `N = 3, h = 1`. -/
theorem C6_witness :
    (neumann_matrix 3 1).length = 3 ∧
    (∀ row ∈ neumann_matrix 3 1, row.length = 3) ∧
    entryR (neumann_matrix 3 1) 0 0 = 0 ∧
    (∀ i j : ℕ, i < 3 → j < 3 → ¬(i = 0 ∧ j = 0) →
      0 < lam 3 1 i + lam 3 1 j ∧
      entryR (neumann_matrix 3 1) i j
        = (1 / (lam 3 1 i + lam 3 1 j)) / (2 * ((3 : ℕ) : ℝ) - 1 * 2) ^ 2) := by
  have hmain := C6_neumann_matrix_props 3 1 (by norm_num) (by norm_num)
    (by norm_num)
  refine ⟨hmain.1, hmain.2.1, hmain.2.2.1, ?_⟩
  intro i j hi hj hne
  obtain ⟨h1, h2⟩ := hmain.2.2.2 i j hi hj hne
  refine ⟨h1, ?_⟩
  rw [h2]
  norm_num

/-- C7: for odd `grid_steps ≥ 3` and positive step size, the mixed matrix has
shape `(N-2) × N` and its entry `[a, b]` equals the spec formula at mode pair
`(a+1, b)`: `(1/(2(N-1))²) · 1/(λ_{a+1} + λ_b + c)` with `c = 1` exactly when
the subtraction trick is enabled. -/
theorem C7_mixed_matrix_spec (N : ℕ) (h : ℝ) (trick : Bool) (_hN : 3 ≤ N)
    (_hodd : N % 2 = 1) (_hh : 0 < h) :
    (mixed_matrix N h trick).length = N - 2 ∧
    (∀ row ∈ mixed_matrix N h trick, row.length = N) ∧
    (∀ a b : ℕ, a < N - 2 → b < N →
      entryR (mixed_matrix N h trick) a b = mixedSpec N h trick (a + 1) b) := by
  refine ⟨by simp [mixed_matrix], ?_, ?_⟩
  · intro row hrow
    simp only [mixed_matrix, List.mem_map] at hrow
    obtain ⟨a, -, rfl⟩ := hrow
    simp
  · intro a b ha hb
    have heq : entryR (mixed_matrix N h trick) a b
        = (1 / (lam N h (a + 1) + lam N h b + (if trick then 1 else 0))) /
          (2 * ((N : ℝ) - 1)) ^ 2 :=
      entryR_ofFun
        (fun a b => (1 / (lam N h (a + 1) + lam N h b +
          (if trick then 1 else 0))) / (2 * ((N : ℝ) - 1)) ^ 2)
        (N - 2) N a b ha hb
    rw [heq, mixedSpec]
    have hls : ∀ k : ℕ, lamSpec N h k = lam N h k := fun k => rfl
    rw [hls, hls]
    ring

/-- C7 witness: the mixed matrix shape and entry formula at
`N = 3, h = 1, subtraction trick enabled`. -/
theorem C7_witness :
    (mixed_matrix 3 1 true).length = 3 - 2 ∧
    (∀ row ∈ mixed_matrix 3 1 true, row.length = 3) ∧
    (∀ a b : ℕ, a < 3 - 2 → b < 3 →
      entryR (mixed_matrix 3 1 true) a b = mixedSpec 3 1 true (a + 1) b) :=
  C7_mixed_matrix_spec 3 1 true (by norm_num) (by norm_num) (by norm_num)

/-- The fine grid reaches at least as far to the left as the coarse grid
(floor-arithmetic comparison of the two leftmost nodes). -/
lemma fine_covers_left (steps : ℕ) (s : ℚ) (c f : ℕ) (hs : 0 < s)
    (hc : 1 ≤ c) (hf : 1 ≤ f)
    (hNc : 1 ≤ (make_coarse_plasma_grid steps s c).length) :
    idx (make_fine_plasma_grid steps s f) 0
      ≤ idx (make_coarse_plasma_grid steps s c) 0 := by
  have hlenc := coarse_length steps s c
  set R := steps / (c * 2) with hRdef
  have hR1 : 1 ≤ R := by omega
  have hRc : R * c ≤ steps / 2 := by
    rw [Nat.le_div_iff_mul_le (by omega : 0 < 2)]
    calc R * c * 2 = R * (c * 2) := by ring
    _ ≤ steps := Nat.div_mul_le_self steps (c * 2)
  set M := steps / 2 * f with hMdef
  have hM1 : 1 ≤ M := by
    have h1 : c ≤ steps / 2 :=
      le_trans (Nat.le_mul_of_pos_left c (by omega)) hRc
    have : 1 ≤ steps / 2 := by omega
    calc 1 = 1 * 1 := by ring
    _ ≤ steps / 2 * f := Nat.mul_le_mul this hf
  have hkeyN : (R - 1) * c * f ≤ M - 1 := by
    have h2 : (R - 1) * c ≤ steps / 2 - c := by
      have : (R - 1) * c = R * c - c := by
        rw [Nat.sub_mul]; ring_nf
      omega
    have h3 : (R - 1) * c * f ≤ (steps / 2 - c) * f :=
      Nat.mul_le_mul_right f h2
    have h4 : (steps / 2 - c) * f = steps / 2 * f - c * f := Nat.sub_mul _ _ _
    have h5 : 1 ≤ c * f := Nat.one_le_iff_ne_zero.mpr (by positivity)
    omega
  have hfQ : (0 : ℚ) < (f : ℚ) := by exact_mod_cast by omega
  have hcQ : (0 : ℚ) < (c : ℚ) := by exact_mod_cast by omega
  have hkeyQ : ((R : ℚ) - 1) * ((c : ℚ) * (f : ℚ)) ≤ (M : ℚ) - 1 := by
    have := hkeyN
    have hcq : (((R - 1) * c * f : ℕ) : ℚ) = ((R : ℚ) - 1) * ((c : ℚ) * (f : ℚ)) := by
      push_cast [Nat.cast_sub hR1]; ring
    have hmq : ((M - 1 : ℕ) : ℚ) = (M : ℚ) - 1 := by
      push_cast [Nat.cast_sub hM1]; ring
    calc ((R : ℚ) - 1) * ((c : ℚ) * (f : ℚ)) = (((R - 1) * c * f : ℕ) : ℚ) := hcq.symm
    _ ≤ ((M - 1 : ℕ) : ℚ) := by exact_mod_cast this
    _ = (M : ℚ) - 1 := hmq
  have hcoarse0 : idx (make_coarse_plasma_grid steps s c) 0
      = (1 - (R : ℚ)) * (s * c) := by
    have h0 : (0 : ℤ) = ((0 : ℕ) : ℤ) := rfl
    rw [h0, idx_natCast _ 0 (by omega), coarse_getElem steps s c 0 (by omega),
      ← hRdef]
    push_cast
    ring
  have hstep : (0 : ℚ) ≤ s / f := by positivity
  have hmain : ((R : ℚ) - 1) * (s * c) ≤ ((M : ℚ) - 1) * (s / f) := by
    have h1 := mul_le_mul_of_nonneg_right hkeyQ hstep
    have h2 : ((R : ℚ) - 1) * ((c : ℚ) * (f : ℚ)) * (s / f)
        = ((R : ℚ) - 1) * (s * c) := by
      field_simp
      ring
    linarith
  by_cases hpar : f % 2 = 1
  · have hlenf := fine_length_odd steps s f hpar
    have hf0 : idx (make_fine_plasma_grid steps s f) 0
        = (1 - (M : ℚ)) * (s / f) := by
      have h0 : (0 : ℤ) = ((0 : ℕ) : ℤ) := rfl
      rw [h0, idx_natCast _ 0 (by omega), fine_getElem_odd steps s f hpar 0 (by omega),
        ← hMdef]
      push_cast
      ring
    rw [hf0, hcoarse0]
    nlinarith
  · have hlenf := fine_length_even steps s f hpar
    have hf0 : idx (make_fine_plasma_grid steps s f) 0
        = (1 / 2 - (M : ℚ)) * (s / f) := by
      have h0 : (0 : ℤ) = ((0 : ℕ) : ℤ) := rfl
      rw [h0, idx_natCast _ 0 (by omega), fine_getElem_even steps s f hpar 0 (by omega),
        ← hMdef]
      push_cast
      ring
    rw [hf0, hcoarse0]
    nlinarith

/-- C5 (amended): for grids produced by the builders (nonempty coarse grid),
the interpolation table of `make_plasma` satisfies: the influence lists are
the per-value weights over the fine grid, same-index weights sum to 1,
`0 ≤ indices_prev ≤ indices_next ≤ Nc-1`; the leftmost fine point gets
`influence_prev = 0, influence_next = 1` provided `Nc ≥ 2`; the rightmost
fine point gets `influence_prev = 1, influence_next = 0` provided it lies
strictly to the right of the last coarse node (this is the amendment: when
`coarseness = fineness = 1` the grids coincide and the rightmost fine point
gets `0, 1` instead — see `C5_counterexample`). -/
theorem C5_interp_table (steps : ℕ) (s : ℚ) (c f : ℕ)
    (hs : 0 < s) (hc : 1 ≤ c) (hf : 1 ≤ f)
    (hNc : 1 ≤ (make_coarse_plasma_grid steps s c).length)
    (r : PlasmaTuple) (hr : make_plasma steps s c f = .ok r) :
    (r.virt_params.influence_prev = r.virt_params.fine_grid.map
      (infPrevAt (make_coarse_plasma_grid steps s c) (s * c))) ∧
    (r.virt_params.influence_next = r.virt_params.fine_grid.map
      (infNextAt (make_coarse_plasma_grid steps s c) (s * c))) ∧
    (∀ v ∈ r.virt_params.fine_grid,
      infPrevAt (make_coarse_plasma_grid steps s c) (s * c) v +
        infNextAt (make_coarse_plasma_grid steps s c) (s * c) v = 1) ∧
    (∀ v ∈ r.virt_params.fine_grid,
      0 ≤ idxPrevAt (make_coarse_plasma_grid steps s c) v ∧
      idxPrevAt (make_coarse_plasma_grid steps s c) v
        ≤ idxNextAt (make_coarse_plasma_grid steps s c) v ∧
      idxNextAt (make_coarse_plasma_grid steps s c) v
        ≤ ((make_coarse_plasma_grid steps s c).length : ℤ) - 1) ∧
    (2 ≤ (make_coarse_plasma_grid steps s c).length →
      infPrevAt (make_coarse_plasma_grid steps s c) (s * c)
        (idx r.virt_params.fine_grid 0) = 0 ∧
      infNextAt (make_coarse_plasma_grid steps s c) (s * c)
        (idx r.virt_params.fine_grid 0) = 1) ∧
    (idx (make_coarse_plasma_grid steps s c)
        (((make_coarse_plasma_grid steps s c).length : ℤ) - 1)
        < idx r.virt_params.fine_grid ((r.virt_params.fine_grid.length : ℤ) - 1) →
      infPrevAt (make_coarse_plasma_grid steps s c) (s * c)
        (idx r.virt_params.fine_grid ((r.virt_params.fine_grid.length : ℤ) - 1)) = 1 ∧
      infNextAt (make_coarse_plasma_grid steps s c) (s * c)
        (idx r.virt_params.fine_grid ((r.virt_params.fine_grid.length : ℤ) - 1)) = 0) := by
  have hcQ : (0 : ℚ) < (c : ℚ) := by exact_mod_cast by omega
  have hp : 0 < s * (c : ℚ) := mul_pos hs hcQ
  have haff := coarse_affine steps s c
  simp only [make_plasma] at hr
  rw [if_neg (by rintro ⟨h0, -⟩; omega)] at hr
  injection hr with hr
  subst hr
  refine ⟨rfl, rfl, ?_, ?_, ?_, ?_⟩
  · intro v _
    exact inf_sum hp haff hNc v
  · intro v _
    exact idx_order _ v hNc
  · intro h2
    exact inf_left_boundary hp haff h2
      (fine_covers_left steps s c f hs hc hf hNc)
  · intro hlt
    exact inf_right_boundary hp haff hNc hlt

/-- C5 counterexample: with `steps = 5, step_size = 1, coarseness = 1,
fineness = 1` the coarse and fine grids coincide (`[-1, 0, 1]`), and the
rightmost fine point receives `influence_prev = 0, influence_next = 1` —
not `influence_prev = 1, influence_next = 0` as the claim states. -/
theorem C5_counterexample :
    ((make_plasma 5 1 1 1).toOption.map fun r =>
       (r.virt_params.influence_prev.getLast?,
        r.virt_params.influence_next.getLast?))
      = some (some 0, some 1) ∧
    ¬ ((make_plasma 5 1 1 1).toOption.map fun r =>
       (r.virt_params.influence_prev.getLast?,
        r.virt_params.influence_next.getLast?))
      = some (some 1, some 0) := by
  constructor <;>
    norm_num [make_plasma, make_coarse_plasma_grid, make_fine_plasma_grid,
      List.range_succ, infPrevAt, infNextAt, idxPrevAt, idxNextAt,
      searchsorted, clip, idx, List.countP_cons, Except.toOption,
      List.getLast?, Int.toNat]

/-- C5 witness: the amended boundary conclusion instantiated at
`steps = 9, step_size = 1, coarseness = 2, fineness = 2`. -/
theorem C5_witness :
    infPrevAt (make_coarse_plasma_grid 9 1 2) ((1 : ℚ) * ((2 : ℕ) : ℚ))
      (idx (make_fine_plasma_grid 9 1 2) 0) = 0 ∧
    infNextAt (make_coarse_plasma_grid 9 1 2) ((1 : ℚ) * ((2 : ℕ) : ℚ))
      (idx (make_fine_plasma_grid 9 1 2) 0) = 1 := by
  have h := C5_interp_table 9 1 2 2 (by norm_num) (by norm_num) (by norm_num)
    (by decide) _ rfl
  exact h.2.2.2.2.1 (by decide)

/-- C10: every interpolation weight produced for a fine-grid point is a
convex-combination coefficient, i.e. lies in `[0, 1]`. -/
theorem C10_weights_unit_interval (steps : ℕ) (s : ℚ) (c f : ℕ)
    (hs : 0 < s) (hc : 1 ≤ c)
    (hNc : 1 ≤ (make_coarse_plasma_grid steps s c).length) :
    ∀ v ∈ make_fine_plasma_grid steps s f,
      (0 ≤ infPrevAt (make_coarse_plasma_grid steps s c) (s * c) v ∧
        infPrevAt (make_coarse_plasma_grid steps s c) (s * c) v ≤ 1) ∧
      (0 ≤ infNextAt (make_coarse_plasma_grid steps s c) (s * c) v ∧
        infNextAt (make_coarse_plasma_grid steps s c) (s * c) v ≤ 1) := by
  intro v _
  have hcQ : (0 : ℚ) < (c : ℚ) := by exact_mod_cast by omega
  have hp : 0 < s * (c : ℚ) := mul_pos hs hcQ
  exact inf_range hp (coarse_affine steps s c) hNc v

/-- C10 witness: the weight bounds at the leftmost fine point of the
`steps = 9, step_size = 1, coarseness = 2, fineness = 2` configuration. -/
theorem C10_witness :
    (0 ≤ infPrevAt (make_coarse_plasma_grid 9 1 2) ((1 : ℚ) * ((2 : ℕ) : ℚ))
        ((make_fine_plasma_grid 9 1 2).getD 0 0) ∧
      infPrevAt (make_coarse_plasma_grid 9 1 2) ((1 : ℚ) * ((2 : ℕ) : ℚ))
        ((make_fine_plasma_grid 9 1 2).getD 0 0) ≤ 1) ∧
    (0 ≤ infNextAt (make_coarse_plasma_grid 9 1 2) ((1 : ℚ) * ((2 : ℕ) : ℚ))
        ((make_fine_plasma_grid 9 1 2).getD 0 0) ∧
      infNextAt (make_coarse_plasma_grid 9 1 2) ((1 : ℚ) * ((2 : ℕ) : ℚ))
        ((make_fine_plasma_grid 9 1 2).getD 0 0) ≤ 1) := by
  refine C10_weights_unit_interval 9 1 2 2 (by norm_num) (by norm_num)
    (by decide) _ ?_
  have hlen : 0 < (make_fine_plasma_grid 9 1 2).length := by decide
  rw [List.getD_eq_getElem _ 0 hlen]
  exact List.getElem_mem hlen

/-- C8 witness: the properties instantiated at
`steps = 9, step_size = 1, coarseness = 2`. -/
theorem C8_witness :
    (make_coarse_plasma_grid 9 1 2).Sorted (· < ·) ∧
    (∀ i : ℕ, ∀ hi : i < (make_coarse_plasma_grid 9 1 2).length,
      (make_coarse_plasma_grid 9 1 2)[i]
        = -(make_coarse_plasma_grid 9 1 2)[
            (make_coarse_plasma_grid 9 1 2).length - 1 - i]) ∧
    (Odd (make_coarse_plasma_grid 9 1 2).length →
      (make_coarse_plasma_grid 9 1 2).count 0 = 1) ∧
    make_coarse_plasma_grid 9 1 2 = [-2, 0, 2] :=
  C8_coarse_grid_props 9 1 2 (by norm_num) (by norm_num)

end LcodeDual
